import Mathlib

/-!
Shallow embedding of the DRM session-orchestration logic of
`src/fairplay.js` (videojs-contrib-eme), together with theorems checking
the natural-language specification against it.

Modelling conventions:
* A JavaScript `ArrayBuffer`/typed array is a `Buffer`: a reference tag
  (`ref`, standing for object identity, so that the JS `===` comparison can
  be expressed) plus the stored byte contents (`bytes`).  In a real JS heap
  two buffers with the same identity have the same contents; theorems that
  need that fact take it as an explicit hypothesis.
* Fallible JS code (code that can throw) is embedded as `Except String`.
* The asynchronous orchestration is single-threaded and suspends only at
  promise boundaries, so each synchronous block between promise
  continuations is embedded as one atomic Lean function, and a run of the
  orchestrator is a fold of such steps over a list of events.
-/

namespace Eme

/-- A JavaScript ArrayBuffer or typed-array view: object identity plus byte
contents.  `arrayBufferFrom` of the source collapses a typed-array view to
its underlying buffer, which this model renders as the identity map. -/
structure Buffer where
  ref : Nat
  bytes : List Nat
  deriving DecidableEq, Repr

/-- One entry of the per-player `sessions` array.  Entries pushed by
`handleEncryptedEvent` carry `playready := false`; entries pushed by
`handleMsNeedKeyEvent` carry `playready := true`.  The source notes that
some session kinds may lack `initData`, hence the `Option`. -/
structure SessionEntry where
  playready : Bool
  initData : Option Buffer
  deriving DecidableEq, Repr

/-- Embeds `arrayBuffersEqual` (fairplay.js lines 530-549): the JS `===`
shortcut is the `ref` comparison, then byte-length comparison, then the
byte-by-byte loop (equivalent to list equality once the lengths agree). -/
def arrayBuffersEqual (b1 b2 : Buffer) : Bool :=
  if b1.ref = b2.ref then true
  else if b1.bytes.length ≠ b2.bytes.length then false
  else decide (b1.bytes = b2.bytes)

/-- Embeds `hasSession` (lines 803-829).  Entries without `initData` are
skipped.  When the probe `initData` is `none` (JS `null`) and an entry does
carry init data, `arrayBuffersEqual(sessionBuffer, null)` dereferences
`null.byteLength` and throws a TypeError, embedded as `.error`. -/
def hasSession : List SessionEntry → Option Buffer → Except String Bool
  | [], _ => .ok false
  | e :: rest, probe =>
    match e.initData with
    | none => hasSession rest probe
    | some sb =>
      match probe with
      | none => .error "TypeError"
      | some b => if arrayBuffersEqual sb b then .ok true else hasSession rest probe

@[simp] theorem hasSession_nil (probe : Option Buffer) :
    hasSession [] probe = .ok false := rfl

@[simp] theorem hasSession_cons_none (pr : Bool) (rest : List SessionEntry)
    (probe : Option Buffer) :
    hasSession (⟨pr, none⟩ :: rest) probe = hasSession rest probe := rfl

@[simp] theorem hasSession_cons_some_none (pr : Bool) (sb : Buffer)
    (rest : List SessionEntry) :
    hasSession (⟨pr, some sb⟩ :: rest) none = .error "TypeError" := rfl

@[simp] theorem hasSession_cons_some_some (pr : Bool) (sb b : Buffer)
    (rest : List SessionEntry) :
    hasSession (⟨pr, some sb⟩ :: rest) (some b)
      = if arrayBuffersEqual sb b then .ok true else hasSession rest (some b) := rfl

/-- Embeds `removeSession` (lines 830-837): the match is the JS strict
equality `sessions[i].initData === initData`, i.e. object identity (`ref`),
and `splice` removes the first matching entry only. -/
def removeSession : List SessionEntry → Buffer → List SessionEntry
  | [], _ => []
  | e :: rest, d =>
    match e.initData with
    | some sb => if sb.ref = d.ref then rest else e :: removeSession rest d
    | none => e :: removeSession rest d

@[simp] theorem removeSession_nil (d : Buffer) : removeSession [] d = [] := rfl

@[simp] theorem removeSession_cons_none (pr : Bool) (rest : List SessionEntry) (d : Buffer) :
    removeSession (⟨pr, none⟩ :: rest) d = ⟨pr, none⟩ :: removeSession rest d := rfl

@[simp] theorem removeSession_cons_some (pr : Bool) (sb : Buffer)
    (rest : List SessionEntry) (d : Buffer) :
    removeSession (⟨pr, some sb⟩ :: rest) d
      = if sb.ref = d.ref then rest else ⟨pr, some sb⟩ :: removeSession rest d := rfl

/-- Whether one registry entry stores init data with exactly the given byte
contents. -/
def entryBytesMatch (e : SessionEntry) (bytes : List Nat) : Bool :=
  match e.initData with
  | some sb => decide (sb.bytes = bytes)
  | none => false

@[simp] theorem entryBytesMatch_some (pr : Bool) (sb : Buffer) (bytes : List Nat) :
    entryBytesMatch ⟨pr, some sb⟩ bytes = decide (sb.bytes = bytes) := rfl

@[simp] theorem entryBytesMatch_none (pr : Bool) (bytes : List Nat) :
    entryBytesMatch ⟨pr, none⟩ bytes = false := rfl

/-- True when some entry of the registry stores init data with exactly the
given byte contents (the byte-fingerprint membership of the spec). -/
def memberBytes (sessions : List SessionEntry) (bytes : List Nat) : Bool :=
  sessions.any (entryBytesMatch · bytes)

@[simp] theorem memberBytes_nil (bytes : List Nat) : memberBytes [] bytes = false := rfl

@[simp] theorem memberBytes_cons (e : SessionEntry) (rest : List SessionEntry)
    (bytes : List Nat) :
    memberBytes (e :: rest) bytes = (entryBytesMatch e bytes || memberBytes rest bytes) := rfl

theorem memberBytes_append (s t : List SessionEntry) (bytes : List Nat) :
    memberBytes (s ++ t) bytes = (memberBytes s bytes || memberBytes t bytes) := by
  simp [memberBytes]

/-- No two entries of the registry carry byte-identical init data. -/
def noByteDup : List SessionEntry → Bool
  | [] => true
  | e :: rest =>
    (match e.initData with
     | some sb => !memberBytes rest sb.bytes
     | none => true) && noByteDup rest

@[simp] theorem noByteDup_nil : noByteDup [] = true := rfl

@[simp] theorem noByteDup_cons_none (pr : Bool) (rest : List SessionEntry) :
    noByteDup (⟨pr, none⟩ :: rest) = noByteDup rest := by
  simp [noByteDup]

@[simp] theorem noByteDup_cons_some (pr : Bool) (sb : Buffer) (rest : List SessionEntry) :
    noByteDup (⟨pr, some sb⟩ :: rest) = (!memberBytes rest sb.bytes && noByteDup rest) := rfl

/-- The per-key-system `pssh` configuration override applied by
`handleEncryptedEvent` (lines 848-851) before the dedup check. -/
def effectiveInitData (pssh evInitData : Option Buffer) : Option Buffer :=
  match pssh with
  | some p => some p
  | none => evInitData

/-- Embeds the registry-relevant body of `handleEncryptedEvent`
(lines 838-878).  `hasKeySystems` is the `options && options.keySystems`
guard; `pssh` is the resolved key-system configuration override; and
`evInitData` is `event.initData`.  The returned `Bool` records whether
`standard5July2016` was invoked (a session acquisition started).  The JS
evaluates `hasSession(sessions, initData)` before the `!initData` test, so
a null probe against an entry carrying init data throws (promise
rejection), embedded as `.error`. -/
def handleEncryptedEvent (hasKeySystems : Bool) (pssh evInitData : Option Buffer)
    (sessions : List SessionEntry) : Except String (List SessionEntry × Bool) :=
  if !hasKeySystems then .ok (sessions, false)
  else
    match hasSession sessions (effectiveInitData pssh evInitData) with
    | .error e => .error e
    | .ok true => .ok (sessions, false)
    | .ok false =>
      match effectiveInitData pssh evInitData with
      | none => .ok (sessions, false)
      | some d => .ok (sessions ++ [⟨false, some d⟩], true)

/-- One encrypted-event signal, as seen by `handleEncryptedEvent`. -/
structure EncryptedSignal where
  hasKeySystems : Bool
  pssh : Option Buffer
  eventInitData : Option Buffer
  deriving DecidableEq, Repr

/-- Registry evolution across one encrypted event: a rejected promise
(thrown TypeError) leaves the registry untouched. -/
def handleEncryptedEventStep (sessions : List SessionEntry) (sig : EncryptedSignal) :
    List SessionEntry :=
  match handleEncryptedEvent sig.hasKeySystems sig.pssh sig.eventInitData sessions with
  | .ok (s, _) => s
  | .error _ => sessions

theorem arrayBuffersEqual_of_bytes_eq {b1 b2 : Buffer} (h : b1.bytes = b2.bytes) :
    arrayBuffersEqual b1 b2 = true := by
  unfold arrayBuffersEqual
  split
  · rfl
  · rw [h]
    simp

theorem bytes_ne_of_arrayBuffersEqual_false {b1 b2 : Buffer}
    (h : arrayBuffersEqual b1 b2 = false) : b1.bytes ≠ b2.bytes := by
  intro hby
  rw [arrayBuffersEqual_of_bytes_eq hby] at h
  simp at h

theorem hasSession_of_memberBytes {sessions : List SessionEntry} {d : Buffer}
    (h : memberBytes sessions d.bytes = true) :
    hasSession sessions (some d) = .ok true := by
  induction sessions with
  | nil => simp at h
  | cons e rest ih =>
    obtain ⟨pr, idt⟩ := e
    cases idt with
    | none =>
      rw [hasSession_cons_none]
      exact ih (by simpa using h)
    | some sb =>
      rw [hasSession_cons_some_some]
      by_cases hq : arrayBuffersEqual sb d = true
      · simp [hq]
      · have hq' : arrayBuffersEqual sb d = false := by simpa using hq
        have hne := bytes_ne_of_arrayBuffersEqual_false hq'
        simp only [memberBytes_cons, entryBytesMatch_some, Bool.or_eq_true,
          decide_eq_true_eq] at h
        rcases h with h | h
        · exact absurd h hne
        · rw [hq']
          simp only [Bool.false_eq_true, if_false]
          exact ih h

theorem memberBytes_false_of_hasSession_false {sessions : List SessionEntry} {d : Buffer}
    (h : hasSession sessions (some d) = .ok false) :
    memberBytes sessions d.bytes = false := by
  induction sessions with
  | nil => simp
  | cons e rest ih =>
    obtain ⟨pr, idt⟩ := e
    cases idt with
    | none =>
      rw [hasSession_cons_none] at h
      simpa using ih h
    | some sb =>
      rw [hasSession_cons_some_some] at h
      by_cases hq : arrayBuffersEqual sb d = true
      · rw [hq] at h
        simp at h
      · have hq' : arrayBuffersEqual sb d = false := by simpa using hq
        rw [hq'] at h
        simp only [Bool.false_eq_true, if_false] at h
        have hne := bytes_ne_of_arrayBuffersEqual_false hq'
        simp only [memberBytes_cons, entryBytesMatch_some, Bool.or_eq_false_iff,
          decide_eq_false_iff_not]
        exact ⟨hne, ih h⟩

theorem noByteDup_append_new {sessions : List SessionEntry} {pr : Bool} {d : Buffer}
    (hnd : noByteDup sessions = true) (hmem : memberBytes sessions d.bytes = false) :
    noByteDup (sessions ++ [⟨pr, some d⟩]) = true := by
  induction sessions with
  | nil => simp
  | cons e rest ih =>
    obtain ⟨epr, idt⟩ := e
    cases idt with
    | none =>
      rw [List.cons_append, noByteDup_cons_none]
      rw [noByteDup_cons_none] at hnd
      simp only [memberBytes_cons, entryBytesMatch_none, Bool.false_or] at hmem
      exact ih hnd hmem
    | some sb =>
      rw [List.cons_append, noByteDup_cons_some, Bool.and_eq_true]
      rw [noByteDup_cons_some, Bool.and_eq_true] at hnd
      simp only [memberBytes_cons, entryBytesMatch_some, Bool.or_eq_false_iff,
        decide_eq_false_iff_not] at hmem
      constructor
      · rw [memberBytes_append]
        simp only [Bool.not_eq_true', Bool.or_eq_false_iff]
        refine ⟨by simpa using hnd.1, ?_⟩
        simp only [memberBytes_cons, entryBytesMatch_some, memberBytes_nil,
          Bool.or_false, decide_eq_false_iff_not]
        intro hcontra
        exact hmem.1 hcontra.symm
      · exact ih hnd.2 hmem.2

/-- True when some entry of the registry stores init data that is the very
same buffer instance (`ref`) as the given reference tag. -/
def memberRef (sessions : List SessionEntry) (r : Nat) : Bool :=
  sessions.any fun e =>
    match e.initData with
    | some sb => decide (sb.ref = r)
    | none => false

/-- A registry is ref-consistent with a probe buffer when every stored
buffer sharing the object identity of the probe also shares its bytes — true of
every real JavaScript heap, where identical references denote one object. -/
def refConsistentWith (sessions : List SessionEntry) (b : Buffer) : Bool :=
  sessions.all fun e =>
    match e.initData with
    | some sb => !decide (sb.ref = b.ref) || decide (sb.bytes = b.bytes)
    | none => true

theorem noByteDup_handleEncryptedEventStep {sessions : List SessionEntry}
    (sig : EncryptedSignal) (hnd : noByteDup sessions = true) :
    noByteDup (handleEncryptedEventStep sessions sig) = true := by
  unfold handleEncryptedEventStep handleEncryptedEvent
  by_cases hks : sig.hasKeySystems = true
  · rw [hks]
    simp only [Bool.not_true, Bool.false_eq_true, if_false]
    generalize effectiveInitData sig.pssh sig.eventInitData = initD
    match hh : hasSession sessions initD with
    | .error e => simp [hnd]
    | .ok true => simp [hnd]
    | .ok false =>
      match initD with
      | none => simp [hnd]
      | some d =>
        simp only
        exact noByteDup_append_new hnd (memberBytes_false_of_hasSession_false hh)
  · simp only [Bool.not_eq_true] at hks
    simp [hks, hnd]

theorem arrayBuffersEqual_congr {sb b1 b2 : Buffer} (hbytes : b1.bytes = b2.bytes)
    (h1 : sb.ref = b1.ref → sb.bytes = b1.bytes)
    (h2 : sb.ref = b2.ref → sb.bytes = b2.bytes) :
    arrayBuffersEqual sb b1 = arrayBuffersEqual sb b2 := by
  by_cases hb : sb.bytes = b1.bytes
  · rw [arrayBuffersEqual_of_bytes_eq hb, arrayBuffersEqual_of_bytes_eq (hb.trans hbytes)]
  · have hr1 : ¬sb.ref = b1.ref := fun h => hb (h1 h)
    have hr2 : ¬sb.ref = b2.ref := fun h => hb ((h2 h).trans hbytes.symm)
    unfold arrayBuffersEqual
    rw [if_neg hr1, if_neg hr2, hbytes]

theorem hasSession_respects_bytes : ∀ (sessions : List SessionEntry) (b1 b2 : Buffer),
    b1.bytes = b2.bytes →
    refConsistentWith sessions b1 = true →
    refConsistentWith sessions b2 = true →
    hasSession sessions (some b1) = hasSession sessions (some b2) := by
  intro sessions
  induction sessions with
  | nil => intro b1 b2 _ _ _; rfl
  | cons e rest ih =>
    intro b1 b2 hbytes hc1 hc2
    simp only [refConsistentWith, List.all_cons, Bool.and_eq_true] at hc1 hc2
    obtain ⟨pr, idt⟩ := e
    cases idt with
    | none =>
      rw [hasSession_cons_none, hasSession_cons_none]
      exact ih b1 b2 hbytes hc1.2 hc2.2
    | some sb =>
      rw [hasSession_cons_some_some, hasSession_cons_some_some]
      have he1 : sb.ref = b1.ref → sb.bytes = b1.bytes := by
        have := hc1.1
        simp only [Bool.or_eq_true, Bool.not_eq_true', decide_eq_false_iff_not,
          decide_eq_true_eq] at this
        intro hr
        rcases this with h | h
        · exact absurd hr h
        · exact h
      have he2 : sb.ref = b2.ref → sb.bytes = b2.bytes := by
        have := hc2.1
        simp only [Bool.or_eq_true, Bool.not_eq_true', decide_eq_false_iff_not,
          decide_eq_true_eq] at this
        intro hr
        rcases this with h | h
        · exact absurd hr h
        · exact h
      rw [arrayBuffersEqual_congr hbytes he1 he2]
      by_cases hq : arrayBuffersEqual sb b2 = true
      · rw [hq]
        rfl
      · have hq' : arrayBuffersEqual sb b2 = false := by simpa using hq
        rw [hq']
        simp only [Bool.false_eq_true, if_false]
        exact ih b1 b2 hbytes hc1.2 hc2.2

theorem removeSession_no_ref_match : ∀ (sessions : List SessionEntry) (d : Buffer),
    memberRef sessions d.ref = false →
    removeSession sessions d = sessions := by
  intro sessions
  induction sessions with
  | nil => intro d _; rfl
  | cons e rest ih =>
    intro d hno
    simp only [memberRef, List.any_cons, Bool.or_eq_false_iff] at hno
    obtain ⟨pr, idt⟩ := e
    cases idt with
    | none =>
      rw [removeSession_cons_none, ih d (by simpa [memberRef] using hno.2)]
    | some sb =>
      have hr : ¬sb.ref = d.ref := by
        have := hno.1
        simpa using this
      rw [removeSession_cons_some, if_neg hr, ih d (by simpa [memberRef] using hno.2)]

/-- Claim C1: over any sequence of encrypted-event signals against one
active source, `handleEncryptedEvent` never produces two registry entries
with byte-identical init data — a signal whose (pssh-overridden) init data
is byte-equal to a stored entry adds nothing and starts no acquisition. -/
theorem handleEncryptedEvent_dedup (sigs : List EncryptedSignal)
    (sessions : List SessionEntry) (hnd : noByteDup sessions = true) :
    noByteDup (sigs.foldl handleEncryptedEventStep sessions) = true ∧
    ∀ s d, memberBytes s d.bytes = true →
      handleEncryptedEvent true none (some d) s = .ok (s, false) := by
  constructor
  · induction sigs generalizing sessions with
    | nil => simpa using hnd
    | cons sig rest ih =>
      rw [List.foldl_cons]
      exact ih _ (noByteDup_handleEncryptedEventStep sig hnd)
  · intro s d h
    unfold handleEncryptedEvent
    rw [show effectiveInitData none (some d) = some d from rfl,
      hasSession_of_memberBytes h]
    simp

theorem handleEncryptedEvent_dedup_witness :
    noByteDup
      ([⟨true, none, some ⟨0, [1, 2]⟩⟩, ⟨true, none, some ⟨1, [1, 2]⟩⟩,
        ⟨true, none, some ⟨2, [3]⟩⟩].foldl handleEncryptedEventStep []) = true :=
  (handleEncryptedEvent_dedup
    [⟨true, none, some ⟨0, [1, 2]⟩⟩, ⟨true, none, some ⟨1, [1, 2]⟩⟩,
      ⟨true, none, some ⟨2, [3]⟩⟩] [] rfl).1

/-- Claim C3 counterexample: `removeSession` compares stored init data to
its argument with JS strict equality (object identity), so a buffer that is
byte-equal to a stored entry but a different instance removes nothing,
refuting the removal half of the claim. -/
theorem removeSession_reference_identity_counterexample :
    removeSession [⟨false, some ⟨0, [1, 2, 3]⟩⟩] ⟨1, [1, 2, 3]⟩
        = [⟨false, some ⟨0, [1, 2, 3]⟩⟩] ∧
    (⟨0, [1, 2, 3]⟩ : Buffer).bytes = (⟨1, [1, 2, 3]⟩ : Buffer).bytes ∧
    (⟨0, [1, 2, 3]⟩ : Buffer).ref ≠ (⟨1, [1, 2, 3]⟩ : Buffer).ref := by
  refine ⟨?_, rfl, by decide⟩
  rw [removeSession_cons_some, if_neg (by decide)]
  rfl

/-- Claim C3 (amended): `hasSession` decides membership by byte-wise
content equality — byte-equal probe buffers (ref-consistently stored) get
the same answer — while `removeSession` matches by reference identity only:
when no stored entry is the same buffer instance as the argument, the
registry is left unchanged even if a byte-equal entry is present. -/
theorem hasSession_bytewise_removeSession_by_reference
    (sessions : List SessionEntry) (b1 b2 d : Buffer)
    (hbytes : b1.bytes = b2.bytes)
    (hc1 : refConsistentWith sessions b1 = true)
    (hc2 : refConsistentWith sessions b2 = true)
    (hno : memberRef sessions d.ref = false) :
    hasSession sessions (some b1) = hasSession sessions (some b2) ∧
    removeSession sessions d = sessions :=
  ⟨hasSession_respects_bytes sessions b1 b2 hbytes hc1 hc2,
    removeSession_no_ref_match sessions d hno⟩

theorem hasSession_bytewise_removeSession_by_reference_witness :
    hasSession [⟨false, some ⟨0, [1, 2]⟩⟩] (some ⟨5, [9]⟩)
        = hasSession [⟨false, some ⟨0, [1, 2]⟩⟩] (some ⟨6, [9]⟩) ∧
    removeSession [⟨false, some ⟨0, [1, 2]⟩⟩] ⟨7, [1, 2]⟩
        = [⟨false, some ⟨0, [1, 2]⟩⟩] :=
  hasSession_bytewise_removeSession_by_reference
    [⟨false, some ⟨0, [1, 2]⟩⟩] ⟨5, [9]⟩ ⟨6, [9]⟩ ⟨7, [1, 2]⟩
    rfl (by decide) (by decide) (by decide)

theorem hasSession_none_of_all_none : ∀ (sessions : List SessionEntry),
    (∀ e ∈ sessions, e.initData = none) →
    hasSession sessions none = .ok false := by
  intro sessions
  induction sessions with
  | nil => intro _; rfl
  | cons e rest ih =>
    intro h
    obtain ⟨pr, idt⟩ := e
    have he := h _ (List.mem_cons_self _ _)
    cases idt with
    | none =>
      rw [hasSession_cons_none]
      exact ih fun x hx => h x (List.mem_cons_of_mem _ hx)
    | some sb => simp at he

/-- Claim C10 counterexample: when the event carries no init data and the
registry already holds an entry that does carry init data,
`hasSession(sessions, null)` dereferences `null.byteLength` and throws, so
the promise returned by `handleEncryptedEvent` rejects instead of
resolving, refuting the "resolves without error" part of the claim. -/
theorem handleEncryptedEvent_null_initData_counterexample :
    handleEncryptedEvent true none none [⟨false, some ⟨0, [1]⟩⟩]
      = .error "TypeError" := rfl

/-- Claim C10 (amended): with null event init data and no pssh override,
provided no registry entry carries init data (in particular for the empty
registry, the state in which the media-keys bootstrap API of the plugin
runs on a fresh source), no
entry is added, no session acquisition is started, and the promise resolves
without error; with an init-data-bearing entry present the lookup instead
throws a TypeError and the promise rejects, still adding nothing. -/
theorem handleEncryptedEvent_null_initData (sessions : List SessionEntry)
    (h : ∀ e ∈ sessions, e.initData = none) :
    handleEncryptedEvent true none none sessions = .ok (sessions, false) := by
  unfold handleEncryptedEvent
  rw [show effectiveInitData none none = none from rfl,
    hasSession_none_of_all_none sessions h]
  simp

theorem handleEncryptedEvent_null_initData_witness :
    handleEncryptedEvent true none none [] = .ok ([], false) :=
  handleEncryptedEvent_null_initData [] (by simp)

/-- The tri-state `video.mediaKeysObject` slot of `standard5July2016`:
JS `undefined` (never touched), `null` (creation in flight, set at line 449
before any asynchronous step), or a created platform MediaKeys object. -/
inductive MKObj
  | undef
  | nullMarker
  | created (id : Nat)
  deriving DecidableEq, Repr

/-- JS truthiness of the slot: only an actual object is truthy. -/
def mkTruthy : MKObj → Bool
  | .created _ => true
  | _ => false

/-- The per-video-element orchestration state mutated by
`standard5July2016` / `addSession` / `setMediaKeys`, plus instrumentation:
`requests` is the trace of `makeNewRequest` invocations in order,
`mkAssigned` counts `setMediaKeys` assignments, `creationsStarted` counts
entries into the negotiation/certificate/creation path, and `deferredAdd`
holds the addSession continuations chained on the creation promise. -/
structure SurfaceState where
  mediaKeysObject : MKObj
  pendingSessionData : List (String × Buffer)
  requests : List (String × Buffer)
  mkAssigned : Nat
  creationsStarted : Nat
  deferredAdd : List (String × Buffer)
  deriving DecidableEq, Repr

/-- Embeds `addSession` (lines 310-335): with a truthy media-keys object
the pair goes straight to `makeNewRequest`; otherwise it is appended to
`video.pendingSessionData`. -/
def addSession (v : SurfaceState) (idt : String) (d : Buffer) : SurfaceState :=
  if mkTruthy v.mediaKeysObject then { v with requests := v.requests ++ [(idt, d)] }
  else { v with pendingSessionData := v.pendingSessionData ++ [(idt, d)] }

/-- Embeds `setMediaKeys` (lines 337-366): assign the created media-keys
object, replay every pending pair through `makeNewRequest` in queue order,
then clear the queue. -/
def setMediaKeys (v : SurfaceState) (mkId : Nat) : SurfaceState :=
  { v with mediaKeysObject := .created mkId,
           requests := v.requests ++ v.pendingSessionData,
           pendingSessionData := [],
           mkAssigned := v.mkAssigned + 1 }

theorem foldl_addSession_of_not_truthy :
    ∀ (ps : List (String × Buffer)) (v : SurfaceState),
    mkTruthy v.mediaKeysObject = false →
    ps.foldl (fun w p => addSession w p.1 p.2) v
      = { v with pendingSessionData := v.pendingSessionData ++ ps } := by
  intro ps
  induction ps with
  | nil => intro v _; simp
  | cons p rest ih =>
    intro v h
    rw [List.foldl_cons]
    have hstep : addSession v p.1 p.2
        = { v with pendingSessionData := v.pendingSessionData ++ [p] } := by
      unfold addSession
      rw [h]
      simp
    rw [hstep, ih { v with pendingSessionData := v.pendingSessionData ++ [p] } h]
    simp

/-- Claim C2: while the media-keys object is not yet created (a falsy
`video.mediaKeysObject`), every `addSession` call appends its pair to the
pending queue instead of firing a request, and a subsequent `setMediaKeys`
replays exactly those queued pairs once, in FIFO order, through
`makeNewRequest` and leaves the queue empty. -/
theorem addSession_queue_setMediaKeys_drain (ps : List (String × Buffer))
    (v : SurfaceState) (mkId : Nat) (h : mkTruthy v.mediaKeysObject = false) :
    (ps.foldl (fun w p => addSession w p.1 p.2) v).pendingSessionData
        = v.pendingSessionData ++ ps ∧
    (ps.foldl (fun w p => addSession w p.1 p.2) v).requests = v.requests ∧
    (setMediaKeys (ps.foldl (fun w p => addSession w p.1 p.2) v) mkId).requests
        = v.requests ++ (v.pendingSessionData ++ ps) ∧
    (setMediaKeys (ps.foldl (fun w p => addSession w p.1 p.2) v) mkId).pendingSessionData
        = [] := by
  rw [foldl_addSession_of_not_truthy ps v h]
  unfold setMediaKeys
  exact ⟨rfl, rfl, rfl, rfl⟩

theorem addSession_queue_setMediaKeys_drain_witness :
    ([("cenc", (⟨1, [7]⟩ : Buffer)), ("webm", ⟨2, [8]⟩)].foldl
        (fun w p => addSession w p.1 p.2)
        (⟨.nullMarker, [("cenc", ⟨0, [5]⟩)], [], 0, 1, []⟩ : SurfaceState)).pendingSessionData
      = [("cenc", ⟨0, [5]⟩)] ++ [("cenc", ⟨1, [7]⟩), ("webm", ⟨2, [8]⟩)] ∧
    ([("cenc", (⟨1, [7]⟩ : Buffer)), ("webm", ⟨2, [8]⟩)].foldl
        (fun w p => addSession w p.1 p.2)
        (⟨.nullMarker, [("cenc", ⟨0, [5]⟩)], [], 0, 1, []⟩ : SurfaceState)).requests = [] ∧
    (setMediaKeys
        ([("cenc", (⟨1, [7]⟩ : Buffer)), ("webm", ⟨2, [8]⟩)].foldl
          (fun w p => addSession w p.1 p.2)
          (⟨.nullMarker, [("cenc", ⟨0, [5]⟩)], [], 0, 1, []⟩ : SurfaceState)) 42).requests
      = [] ++ ([("cenc", ⟨0, [5]⟩)] ++ [("cenc", ⟨1, [7]⟩), ("webm", ⟨2, [8]⟩)]) ∧
    (setMediaKeys
        ([("cenc", (⟨1, [7]⟩ : Buffer)), ("webm", ⟨2, [8]⟩)].foldl
          (fun w p => addSession w p.1 p.2)
          (⟨.nullMarker, [("cenc", ⟨0, [5]⟩)], [], 0, 1, []⟩ : SurfaceState)) 42).pendingSessionData
      = [] :=
  addSession_queue_setMediaKeys_drain
    [("cenc", ⟨1, [7]⟩), ("webm", ⟨2, [8]⟩)]
    ⟨.nullMarker, [("cenc", ⟨0, [5]⟩)], [], 0, 1, []⟩ 42 rfl

/-- An event observed by one playback surface: a need-key signal entering
`standard5July2016`, or the resolution of the (single) media-keys creation
promise chain. -/
inductive SurfaceEv
  | signal (initDataType : String) (initData : Buffer)
  | creationComplete (mkId : Nat)
  deriving DecidableEq, Repr

/-- A surface on which `standard5July2016` has never run: the
`mediaKeysObject` slot is JS `undefined`. -/
def freshSurface : SurfaceState := ⟨.undef, [], [], 0, 0, []⟩

/-- Embeds the synchronous prefix of `standard5July2016` (lines 438-509)
and the resolution of its creation chain.  A signal finding the slot
`undefined` marks it `null` (in progress) and resets the queue before any
asynchronous work, counts one creation entry, and defers its own
`addSession` behind the creation promise; any other signal goes straight to
`addSession`.  The creation promise resolves at most once, and only while a
creation is in flight: it runs `setMediaKeys` (assign + drain) and then the
deferred addSession continuations. -/
def stepEv (v : SurfaceState) : SurfaceEv → SurfaceState
  | .signal idt d =>
    if v.mediaKeysObject = .undef then
      { v with mediaKeysObject := .nullMarker,
               pendingSessionData := [],
               creationsStarted := v.creationsStarted + 1,
               deferredAdd := v.deferredAdd ++ [(idt, d)] }
    else addSession v idt d
  | .creationComplete mkId =>
    if v.mediaKeysObject = .nullMarker then
      (setMediaKeys v mkId).deferredAdd.foldl (fun u p => addSession u p.1 p.2)
        { setMediaKeys v mkId with deferredAdd := [] }
    else v

theorem stepEv_signal (v : SurfaceState) (idt : String) (d : Buffer) :
    stepEv v (.signal idt d)
      = if v.mediaKeysObject = .undef then
          { v with mediaKeysObject := .nullMarker,
                   pendingSessionData := [],
                   creationsStarted := v.creationsStarted + 1,
                   deferredAdd := v.deferredAdd ++ [(idt, d)] }
        else addSession v idt d := rfl

theorem stepEv_complete (v : SurfaceState) (mkId : Nat) :
    stepEv v (.creationComplete mkId)
      = if v.mediaKeysObject = .nullMarker then
          (setMediaKeys v mkId).deferredAdd.foldl (fun u p => addSession u p.1 p.2)
            { setMediaKeys v mkId with deferredAdd := [] }
        else v := rfl

/-- The tri-state guard invariant of the spec: the creation path has been
entered exactly once as soon as the slot leaves `undefined`, and the
platform object has been assigned exactly once as soon as it is `created`. -/
def SurfaceInv (v : SurfaceState) : Prop :=
  match v.mediaKeysObject with
  | .undef => v.creationsStarted = 0 ∧ v.mkAssigned = 0
  | .nullMarker => v.creationsStarted = 1 ∧ v.mkAssigned = 0
  | .created _ => v.creationsStarted = 1 ∧ v.mkAssigned = 1

theorem addSession_preserves_core (v : SurfaceState) (idt : String) (d : Buffer) :
    (addSession v idt d).mediaKeysObject = v.mediaKeysObject ∧
    (addSession v idt d).creationsStarted = v.creationsStarted ∧
    (addSession v idt d).mkAssigned = v.mkAssigned := by
  unfold addSession
  split <;> exact ⟨rfl, rfl, rfl⟩

theorem foldl_addSession_preserves_core :
    ∀ (l : List (String × Buffer)) (v : SurfaceState),
    ((l.foldl (fun u p => addSession u p.1 p.2) v).mediaKeysObject = v.mediaKeysObject ∧
     (l.foldl (fun u p => addSession u p.1 p.2) v).creationsStarted = v.creationsStarted ∧
     (l.foldl (fun u p => addSession u p.1 p.2) v).mkAssigned = v.mkAssigned) := by
  intro l
  induction l with
  | nil => intro v; exact ⟨rfl, rfl, rfl⟩
  | cons p rest ih =>
    intro v
    rw [List.foldl_cons]
    have h1 := addSession_preserves_core v p.1 p.2
    have h2 := ih (addSession v p.1 p.2)
    exact ⟨h2.1.trans h1.1, h2.2.1.trans h1.2.1, h2.2.2.trans h1.2.2⟩

theorem stepEv_preserves_inv (v : SurfaceState) (e : SurfaceEv) (h : SurfaceInv v) :
    SurfaceInv (stepEv v e) := by
  cases e with
  | signal idt d =>
    rw [stepEv_signal]
    by_cases hu : v.mediaKeysObject = .undef
    · rw [if_pos hu]
      unfold SurfaceInv at h ⊢
      rw [hu] at h
      simp only
      exact ⟨by rw [h.1], h.2⟩
    · rw [if_neg hu]
      have hp := addSession_preserves_core v idt d
      unfold SurfaceInv
      rw [hp.1, hp.2.1, hp.2.2]
      exact h
  | creationComplete mkId =>
    rw [stepEv_complete]
    by_cases hn : v.mediaKeysObject = .nullMarker
    · rw [if_pos hn]
      unfold SurfaceInv at h
      rw [hn] at h
      have hp := foldl_addSession_preserves_core (setMediaKeys v mkId).deferredAdd
        { setMediaKeys v mkId with deferredAdd := [] }
      unfold SurfaceInv
      rw [hp.1, hp.2.1, hp.2.2]
      simp only [setMediaKeys]
      exact ⟨h.1, by rw [h.2]⟩
    · rw [if_neg hn]
      exact h

theorem foldl_stepEv_inv : ∀ (evs : List SurfaceEv) (v : SurfaceState),
    SurfaceInv v → SurfaceInv (evs.foldl stepEv v) := by
  intro evs
  induction evs with
  | nil => intro v h; simpa using h
  | cons e rest ih =>
    intro v h
    rw [List.foldl_cons]
    exact ih _ (stepEv_preserves_inv v e h)

/-- Claim C4: starting from a fresh surface, any interleaving of need-key
signals and creation resolution enters the creation path at most once and
assigns at most one platform media-keys object; and any signal arriving
while the slot is already marked in progress (`null`) or created goes
directly to `addSession` without touching the creation path. -/
theorem standard5July2016_creation_once (evs : List SurfaceEv) (v : SurfaceState)
    (idt : String) (d : Buffer) (m : Nat) :
    (evs.foldl stepEv freshSurface).creationsStarted ≤ 1 ∧
    (evs.foldl stepEv freshSurface).mkAssigned ≤ 1 ∧
    stepEv { v with mediaKeysObject := .nullMarker } (.signal idt d)
      = addSession { v with mediaKeysObject := .nullMarker } idt d ∧
    stepEv { v with mediaKeysObject := .created m } (.signal idt d)
      = addSession { v with mediaKeysObject := .created m } idt d := by
  have hinv := foldl_stepEv_inv evs freshSurface ⟨rfl, rfl⟩
  unfold SurfaceInv at hinv
  refine ⟨?_, ?_, ?_, ?_⟩
  · cases hm : (evs.foldl stepEv freshSurface).mediaKeysObject <;>
      rw [hm] at hinv <;> omega
  · cases hm : (evs.foldl stepEv freshSurface).mediaKeysObject <;>
      rw [hm] at hinv <;> omega
  · rw [stepEv_signal, if_neg (by simp)]
  · rw [stepEv_signal, if_neg (by simp)]

/-- The per-player plugin state touched by `setupSessions`, together with
the per-video-element pending queue that it does not touch. -/
structure PlayerEmeState where
  src : String
  activeSrc : Option String
  sessions : List SessionEntry
  videoPendingSessionData : List (String × Buffer)
  deriving DecidableEq, Repr

/-- Embeds `setupSessions` (lines 952-959): when the current source differs
from the recorded active source, record the new source and empty the
session registry.  Nothing else is written — in particular
`video.pendingSessionData` lives on the tech element and is untouched. -/
def setupSessions (p : PlayerEmeState) : PlayerEmeState :=
  if some p.src ≠ p.activeSrc then { p with activeSrc := some p.src, sessions := [] }
  else p

/-- Claim C5 counterexample: on a source change with a nonempty pending
queue, `setupSessions` leaves the queue exactly as it was, so queued pairs
accumulated under the previous source survive, refuting the claim that all
pending-queue state is cleared. -/
theorem setupSessions_pending_counterexample :
    (setupSessions
        ⟨"b", some "a", [⟨false, some ⟨0, [1]⟩⟩],
          [("cenc", ⟨1, [2]⟩)]⟩).videoPendingSessionData
      = [("cenc", ⟨1, [2]⟩)] ∧
    (setupSessions
        ⟨"b", some "a", [⟨false, some ⟨0, [1]⟩⟩],
          [("cenc", ⟨1, [2]⟩)]⟩).videoPendingSessionData
      ≠ [] := by decide

/-- Claim C5 (amended): when the current source differs from the recorded
active source, `setupSessions` empties the session registry and records the
new source, but it leaves the video element pending-queue state unchanged —
queued pairs from the previous source are not cleared by it. -/
theorem setupSessions_resets_registry_only (p : PlayerEmeState)
    (h : some p.src ≠ p.activeSrc) :
    (setupSessions p).sessions = [] ∧
    (setupSessions p).activeSrc = some p.src ∧
    (setupSessions p).videoPendingSessionData = p.videoPendingSessionData := by
  unfold setupSessions
  rw [if_pos h]
  exact ⟨rfl, rfl, rfl⟩

theorem setupSessions_resets_registry_only_witness :
    (setupSessions
        ⟨"c", some "a", [⟨false, some ⟨0, [1]⟩⟩],
          [("cenc", ⟨1, [2]⟩)]⟩).sessions = [] ∧
    (setupSessions
        ⟨"c", some "a", [⟨false, some ⟨0, [1]⟩⟩],
          [("cenc", ⟨1, [2]⟩)]⟩).activeSrc = some "c" ∧
    (setupSessions
        ⟨"c", some "a", [⟨false, some ⟨0, [1]⟩⟩],
          [("cenc", ⟨1, [2]⟩)]⟩).videoPendingSessionData
      = [("cenc", ⟨1, [2]⟩)] :=
  setupSessions_resets_registry_only
    ⟨"c", some "a", [⟨false, some ⟨0, [1]⟩⟩], [("cenc", ⟨1, [2]⟩)]⟩ (by decide)

/-- Outcome of one keystatuseschange delivery to the listener installed by
`makeNewRequest`: the keystatuschange triggers fanned out to the event bus,
whether `keySession.close()` was called, and the registry after the
`removeSession` callback (run once the close resolves). -/
structure KeyStatusesChangeResult where
  keyStatusEvents : List (Nat × String)
  closedSession : Bool
  sessions : List SessionEntry
  deriving DecidableEq, Repr

/-- Embeds the keystatuseschange listener of `makeNewRequest`
(lines 265-306): every key status fires a keystatuschange trigger; the
fold is the mutable `expired` flag set by the `switch` on status
`"expired"`; when set, the session is closed and, after the close resolves,
`removeSession(initData)` runs against the registry. -/
def onKeyStatusesChange (statuses : List (Nat × String)) (sessions : List SessionEntry)
    (initData : Buffer) : KeyStatusesChangeResult :=
  let expired := statuses.foldl (fun acc p => if p.2 = "expired" then true else acc) false
  { keyStatusEvents := statuses,
    closedSession := expired,
    sessions := if expired then removeSession sessions initData else sessions }

theorem foldl_expired_eq_any : ∀ (statuses : List (Nat × String)) (b : Bool),
    statuses.foldl (fun acc p => if p.2 = "expired" then true else acc) b
      = (b || statuses.any fun p => decide (p.2 = "expired")) := by
  intro statuses
  induction statuses with
  | nil => intro b; simp
  | cons p rest ih =>
    intro b
    rw [List.foldl_cons, ih, List.any_cons]
    by_cases hp : p.2 = "expired"
    · simp [hp]
    · simp [hp]

/-- Claim C6: a keystatuseschange report closes the session and removes it
(via the `removeSession` callback) exactly when some key in the session
reports status "expired" — even when every other key is non-expired — and
when no key reports "expired" the session is neither closed nor removed. -/
theorem keystatuseschange_expiry (statuses : List (Nat × String))
    (sessions : List SessionEntry) (d : Buffer) :
    ((onKeyStatusesChange statuses sessions d).closedSession = true
        ↔ ∃ p ∈ statuses, p.2 = "expired") ∧
    (onKeyStatusesChange statuses sessions d).sessions
      = (if statuses.any (fun p => decide (p.2 = "expired"))
         then removeSession sessions d else sessions) ∧
    (onKeyStatusesChange statuses sessions d).keyStatusEvents = statuses := by
  have hc : (onKeyStatusesChange statuses sessions d).closedSession
      = statuses.any fun p => decide (p.2 = "expired") := by
    unfold onKeyStatusesChange
    rw [foldl_expired_eq_any]
    simp
  have hs : (onKeyStatusesChange statuses sessions d).sessions
      = if statuses.any (fun p => decide (p.2 = "expired"))
        then removeSession sessions d else sessions := by
    unfold onKeyStatusesChange
    rw [foldl_expired_eq_any]
    simp only [Bool.false_or]
  refine ⟨?_, hs, rfl⟩
  rw [hc]
  simp [List.any_eq_true]

/-- Actions a license-exchange completion callback can take, in program
order: the licenserequestattempted trigger, settling the wrapping promise,
applying the license to the session, or logging the failure. -/
inductive LicenseAct
  | attemptTrigger
  | rejectOutcome
  | resolveOutcome
  | updateOutcome
  | logErrorOutcome
  deriving DecidableEq, Repr

/-- Embeds the completion callback of `promisifyGetLicense`
(lines 402-418): when an event bus exists, the licenserequestattempted
trigger fires before the promise settles; on error the code calls reject
and then still falls through to resolve, but the first settlement wins. -/
def promisifyGetLicenseCallback (eventBus err : Bool) : List LicenseAct :=
  (if eventBus then [.attemptTrigger] else [])
    ++ (if err then [.rejectOutcome, .resolveOutcome] else [.resolveOutcome])

/-- Embeds the webkitkeymessage getLicense completion callback inside the
FairPlay `addKey` (lines 623-636): trigger first, then reject on error or
update the key session with the license. -/
def addKeyMessageCallback (eventBus err : Bool) : List LicenseAct :=
  (if eventBus then [.attemptTrigger] else [])
    ++ (if err then [.rejectOutcome] else [.updateOutcome])

/-- Embeds `addKeyToSession` (lines 720-754): with a custom getKey hook the
function returns before any license request is made (and fires no
notification); otherwise `requestPlayreadyLicense` runs and its completion
fires the trigger before logging the failure or updating the session. -/
def addKeyToSession (hasGetKey eventBus err : Bool) : List LicenseAct :=
  if hasGetKey then (if err then [.logErrorOutcome] else [.updateOutcome])
  else
    (if eventBus then [.attemptTrigger] else [])
      ++ (if err then [.logErrorOutcome] else [.updateOutcome])

/-- Claim C7: on each license-exchange attempt completion — the standard
path through `promisifyGetLicense`, the FairPlay webkitkeymessage handler
in `addKey`, and the PlayReady license request in `addKeyToSession` — with
an event bus present, exactly one licenserequestattempted notification is
emitted, and it precedes the delivery of the success or failure outcome. -/
theorem licenserequestattempted_once_per_attempt (err : Bool) :
    (promisifyGetLicenseCallback true err).count .attemptTrigger = 1 ∧
    (promisifyGetLicenseCallback true err).head? = some .attemptTrigger ∧
    (addKeyMessageCallback true err).count .attemptTrigger = 1 ∧
    (addKeyMessageCallback true err).head? = some .attemptTrigger ∧
    (addKeyToSession false true err).count .attemptTrigger = 1 ∧
    (addKeyToSession false true err).head? = some .attemptTrigger := by
  cases err <;> decide

/-- A getLicense hook as resolved by `standardizeKeySystemOptions`: either
caller-supplied, or one of the two URL-based defaults. -/
inductive GetLicenseFn
  | custom
  | defaultPlayready (url : String)
  | defaultStandard (url : String)
  deriving DecidableEq, Repr

/-- Object form of a per-key-system configuration, restricted to the
fields `standardizeKeySystemOptions` inspects. -/
structure KeySystemConfig where
  url : Option String
  getLicense : Option GetLicenseFn
  getCertificate : Bool
  deriving DecidableEq, Repr

/-- A configuration value as supplied by the caller: a plain string (URL
shorthand) or an object. -/
inductive KeySystemConfigInput
  | str (s : String)
  | obj (o : KeySystemConfig)
  deriving DecidableEq, Repr

/-- JS truthiness of the url field: absent (`undefined`) and the empty
string are both falsy. -/
def urlTruthy : Option String → Bool
  | none => false
  | some s => decide (s ≠ "")

/-- Embeds `standardizeKeySystemOptions` (lines 420-436): a plain string
becomes `{url}`; if neither a truthy url nor a getLicense hook is present
the function throws; a truthy url without a hook gets the PlayReady or
standard URL-based default. -/
def standardizeKeySystemOptions (keySystem : String) (input : KeySystemConfigInput) :
    Except String KeySystemConfig :=
  let o := match input with
    | .str s => { url := some s, getLicense := none, getCertificate := false }
    | .obj o => o
  if !urlTruthy o.url && o.getLicense.isNone then
    .error "Neither URL nor getLicense function provided to get license"
  else if urlTruthy o.url && o.getLicense.isNone then
    .ok { o with getLicense := some (if keySystem = "com.microsoft.playready"
              then .defaultPlayready (o.url.getD "")
              else .defaultStandard (o.url.getD "")) }
  else .ok o

/-- Network activity observable during key-system setup. -/
inductive NetworkAct
  | certificateFetch
  | licenseFetch
  deriving DecidableEq, Repr

/-- Whether the embedded call returned normally. -/
def configOk : Except String KeySystemConfig → Bool
  | .ok _ => true
  | .error _ => false

/-- Embeds lines 461-481 of `standard5July2016`: once key-system access
resolves, the configuration is standardized — a throw rejects the chain at
once — and only then, and only if a getCertificate hook exists, is the
certificate fetch issued. -/
def keySystemAccessStep (keySystem : String) (input : KeySystemConfigInput) :
    Except String KeySystemConfig × List NetworkAct :=
  match standardizeKeySystemOptions keySystem input with
  | .error e => (.error e, [])
  | .ok o => (.ok o, if o.getCertificate then [.certificateFetch] else [])

/-- Claim C9: `standardizeKeySystemOptions` rejects a configuration exactly
when it supplies neither a (truthy) license URL nor a getLicense hook; a
plain nonempty string is accepted as the license URL (with the matching
URL-based default hook), the empty string counting as no URL; and a
rejected configuration produces no certificate or license network activity
in the key-system access step. -/
theorem standardizeKeySystemOptions_rejects_iff (ks s : String)
    (o : KeySystemConfig) (b : Bool) :
    (configOk (standardizeKeySystemOptions ks (.obj o)) = false
        ↔ (urlTruthy o.url = false ∧ o.getLicense = none)) ∧
    standardizeKeySystemOptions ks (.str s)
      = (if s = ""
         then .error "Neither URL nor getLicense function provided to get license"
         else .ok ⟨some s,
            some (if ks = "com.microsoft.playready"
              then .defaultPlayready s else .defaultStandard s), false⟩) ∧
    keySystemAccessStep ks (.obj ⟨none, none, b⟩)
      = (.error "Neither URL nor getLicense function provided to get license", []) := by
  refine ⟨?_, ?_, rfl⟩
  · by_cases hu : urlTruthy o.url = true
    · by_cases hl : o.getLicense = none
      · simp [standardizeKeySystemOptions, configOk, hu, hl]
      · simp [standardizeKeySystemOptions, configOk, hu, hl,
          Option.isNone_iff_eq_none]
    · have hu' : urlTruthy o.url = false := by simpa using hu
      by_cases hl : o.getLicense = none
      · simp [standardizeKeySystemOptions, configOk, hu', hl]
      · simp [standardizeKeySystemOptions, configOk, hu', hl,
          Option.isNone_iff_eq_none]
  · by_cases hs : s = ""
    · subst hs
      simp [standardizeKeySystemOptions, urlTruthy]
    · simp [standardizeKeySystemOptions, urlTruthy, hs]

/-- The two little-endian bytes a Uint16Array element occupies in the
underlying ArrayBuffer. -/
def uint16LE (n : Nat) : List Nat := [n % 256, n / 256 % 256]

/-- The four little-endian bytes written by a `DataView.setUint32` call
with littleEndian true. -/
def uint32LE (n : Nat) : List Nat :=
  [n % 256, n / 256 % 256, n / 65536 % 256, n / 16777216 % 256]

@[simp] theorem uint16LE_length (n : Nat) : (uint16LE n).length = 2 := rfl

@[simp] theorem uint32LE_length (n : Nat) : (uint32LE n).length = 4 := rfl

/-- Embeds `stringToUint16Array` (lines 511-521): a JS string is its list
of UTF-16 code units; each `charCodeAt` value is stored into a Uint16Array
slot, which truncates mod 2^16. -/
def stringToUint16Array (s : List Nat) : List Nat := s.map (fun c => c % 65536)

/-- Embeds `concatInitDataIdAndCertificate` (lines 7-43 / 560-591), writing
the documented layout
`[initData][uint32 idByteLength][UTF-16 id][uint32 certByteLength][cert]`
into a fresh buffer.  The Uint16Array view for the id is created at byte
offset `initData.byteLength + 4`; the TypedArray constructor throws a
RangeError whenever that offset is not a multiple of 2, i.e. whenever
`initData` has odd byte length — embedded as `none`.  Uint8Array stores
truncate bytes mod 2^8. -/
def concatInitDataIdAndCertificate (initData idStr cert : List Nat) :
    Option (List Nat) :=
  if (initData.length + 4) % 2 = 0 then
    some (initData.map (fun b => b % 256)
      ++ uint32LE (2 * (stringToUint16Array idStr).length)
      ++ (stringToUint16Array idStr).flatMap uint16LE
      ++ uint32LE cert.length
      ++ cert.map (fun b => b % 256))
  else none

/-- Reads a little-endian uint32 from the first four bytes. -/
def readUint32LE : List Nat → Option Nat
  | b0 :: b1 :: b2 :: b3 :: _ => some (b0 + 256 * b1 + 65536 * b2 + 16777216 * b3)
  | _ => none

/-- Reassembles UTF-16 code units from little-endian byte pairs. -/
def bytesToUint16 : List Nat → List Nat
  | b0 :: b1 :: rest => (b0 + 256 * b1) :: bytesToUint16 rest
  | _ => []

/-- Modelled from the spec: the repository ships no decoder for the
Legacy-variant-A composite payload, so this reads back the documented
little-endian layout
`[initData][uint32 idByteLength][UTF-16 id][uint32 certByteLength][cert]`
(spec section 6), given the externally known initData byte length. -/
def decodeInitDataIdAndCertificate (initDataLen : Nat) (bs : List Nat) :
    Option (List Nat × List Nat × List Nat) :=
  match readUint32LE (bs.drop initDataLen) with
  | none => none
  | some idByteLen =>
    match readUint32LE (((bs.drop initDataLen).drop 4).drop idByteLen) with
    | none => none
    | some certLen =>
      if bs.length = initDataLen + 4 + idByteLen + 4 + certLen then
        some (bs.take initDataLen,
          bytesToUint16 (((bs.drop initDataLen).drop 4).take idByteLen),
          ((((bs.drop initDataLen).drop 4).drop idByteLen).drop 4).take certLen)
      else none

theorem map_mod_eq_self : ∀ (l : List Nat) (m : Nat), (∀ b ∈ l, b < m) →
    l.map (fun b => b % m) = l := by
  intro l m
  induction l with
  | nil => intro _; rfl
  | cons a t ih =>
    intro h
    rw [List.map_cons, Nat.mod_eq_of_lt (h a (List.mem_cons_self a t)),
      ih fun b hb => h b (List.mem_cons_of_mem _ hb)]

theorem length_flatMap_uint16LE : ∀ (l : List Nat),
    (l.flatMap uint16LE).length = 2 * l.length := by
  intro l
  induction l with
  | nil => rfl
  | cons a t ih =>
    rw [List.flatMap_cons, List.length_append, ih, uint16LE_length, List.length_cons]
    omega

theorem readUint32LE_uint32LE (n : Nat) (h : n < 4294967296) (rest : List Nat) :
    readUint32LE (uint32LE n ++ rest) = some n := by
  show some (n % 256 + 256 * (n / 256 % 256) + 65536 * (n / 65536 % 256)
      + 16777216 * (n / 16777216 % 256)) = some n
  have he : n % 256 + 256 * (n / 256 % 256) + 65536 * (n / 65536 % 256)
      + 16777216 * (n / 16777216 % 256) = n := by omega
  rw [he]

theorem drop4_uint32LE_append (n : Nat) (rest : List Nat) :
    (uint32LE n ++ rest).drop 4 = rest := rfl

theorem bytesToUint16_flatMap : ∀ (l : List Nat), (∀ u ∈ l, u < 65536) →
    bytesToUint16 (l.flatMap uint16LE) = l := by
  intro l
  induction l with
  | nil => intro _; rfl
  | cons u t ih =>
    intro h
    have hu := h u (List.mem_cons_self u t)
    show (u % 256 + 256 * (u / 256 % 256)) :: bytesToUint16 (t.flatMap uint16LE) = u :: t
    rw [ih fun b hb => h b (List.mem_cons_of_mem _ hb)]
    have he : u % 256 + 256 * (u / 256 % 256) = u := by omega
    rw [he]

/-- Claim C8 counterexample: for odd-length initData the encoder does not
produce the claimed layout at all — the id Uint16Array view sits at the
odd byte offset `initData.byteLength + 4` and its construction throws a
RangeError (here: `new Uint16Array(buffer, 5, 0)` for one initData byte,
an empty content identifier, and an empty certificate). -/
theorem concatInitDataIdAndCertificate_odd_counterexample :
    concatInitDataIdAndCertificate [0] [] [] = none := rfl

/-- Claim C8 (amended): for every initData byte sequence of even length,
every content-identifier string (any number of UTF-16 code units, byte
length below 2^32), and every certificate byte sequence (length below
2^32), the encoder produces exactly the layout
`[initData][uint32 idByteLength LE][UTF-16 code units][uint32
certByteLength LE][cert]`, and decoding that layout recovers the initData,
the content identifier, and the certificate unchanged; for odd-length
initData the encoder instead throws a RangeError. -/
theorem concatInitDataIdAndCertificate_roundTrip (initData idStr cert : List Nat)
    (heven : initData.length % 2 = 0)
    (hinit : ∀ b ∈ initData, b < 256)
    (hid : ∀ u ∈ idStr, u < 65536)
    (hcert : ∀ b ∈ cert, b < 256)
    (hidlen : 2 * idStr.length < 4294967296)
    (hcertlen : cert.length < 4294967296) :
    concatInitDataIdAndCertificate initData idStr cert
      = some (initData ++ (uint32LE (2 * idStr.length)
          ++ (idStr.flatMap uint16LE ++ (uint32LE cert.length ++ cert)))) ∧
    decodeInitDataIdAndCertificate initData.length
        (initData ++ (uint32LE (2 * idStr.length)
          ++ (idStr.flatMap uint16LE ++ (uint32LE cert.length ++ cert))))
      = some (initData, idStr, cert) := by
  have hsid : stringToUint16Array idStr = idStr := map_mod_eq_self idStr 65536 hid
  have hlenB : (idStr.flatMap uint16LE).length = 2 * idStr.length :=
    length_flatMap_uint16LE idStr
  constructor
  · unfold concatInitDataIdAndCertificate
    rw [if_pos (by omega), hsid, map_mod_eq_self initData 256 hinit,
      map_mod_eq_self cert 256 hcert]
    congr 1
    simp [List.append_assoc]
  · unfold decodeInitDataIdAndCertificate
    rw [List.drop_left, readUint32LE_uint32LE _ hidlen, drop4_uint32LE_append]
    have hdB : (idStr.flatMap uint16LE ++ (uint32LE cert.length ++ cert)).drop
        (2 * idStr.length) = uint32LE cert.length ++ cert := by
      rw [← hlenB]
      exact List.drop_left _ _
    have htB : (idStr.flatMap uint16LE ++ (uint32LE cert.length ++ cert)).take
        (2 * idStr.length) = idStr.flatMap uint16LE := by
      rw [← hlenB]
      exact List.take_left _ _
    dsimp only
    rw [hdB, readUint32LE_uint32LE _ hcertlen]
    dsimp only
    have hcond : (initData ++ (uint32LE (2 * idStr.length)
        ++ (idStr.flatMap uint16LE ++ (uint32LE cert.length ++ cert)))).length
        = initData.length + 4 + 2 * idStr.length + 4 + cert.length := by
      simp [List.length_append, hlenB]
      omega
    rw [if_pos hcond, List.take_left, htB,
      bytesToUint16_flatMap idStr hid, drop4_uint32LE_append]
    have hct : cert.take cert.length = cert := by simp
    rw [hct]

theorem concatInitDataIdAndCertificate_roundTrip_witness :
    concatInitDataIdAndCertificate [1, 2] [97, 98] [5]
      = some ([1, 2] ++ (uint32LE (2 * ([97, 98] : List Nat).length)
          ++ (([97, 98] : List Nat).flatMap uint16LE
            ++ (uint32LE ([5] : List Nat).length ++ [5])))) ∧
    decodeInitDataIdAndCertificate ([1, 2] : List Nat).length
        ([1, 2] ++ (uint32LE (2 * ([97, 98] : List Nat).length)
          ++ (([97, 98] : List Nat).flatMap uint16LE
            ++ (uint32LE ([5] : List Nat).length ++ [5]))))
      = some ([1, 2], [97, 98], [5]) :=
  concatInitDataIdAndCertificate_roundTrip [1, 2] [97, 98] [5]
    (by decide) (by decide) (by decide) (by decide) (by decide) (by decide)

end Eme
